import Mathlib

set_option maxRecDepth 10000

/-!
Verification of the LocalPDF target-size compression engine
(`src/core/compressor.py`) against its natural-language specification.

The development is a shallow embedding: the document-access layer (PyMuPDF)
and the image codec (Pillow) are external collaborators, modelled as abstract
structures (`World`, `Codec`) whose observable behaviour is exactly what the
engine reads and writes; the engine's own control flow — validation, lossless
baseline, image inventory, per-image re-encoding, the quality and scale binary
searches and the orchestrating `compress` — is translated function by function
from the source. Machine integers are modelled as `Int` (Python integers are
unbounded) and the float scale factors as exact rationals.
-/

namespace LocalPDF

/-- Pixel-buffer color modes as reported by the image codec
(`pil_img.mode`): the modes the compressor distinguishes, with `other`
standing for every remaining mode string. -/
inductive PMode
  | CMYK
  | RGBA
  | RGB
  | L
  | other
  deriving DecidableEq, Repr

/-- An in-memory pixel buffer (`PIL.Image`): dimensions, color mode, and an
abstract token for the pixel content. -/
structure PixBuf where
  width : ℕ
  height : ℕ
  mode : PMode
  pix : ℕ
  deriving DecidableEq, Repr

/-- The image codec adapter (Pillow), an external collaborator: decoding to a
pixel buffer, the content transformations the compressor invokes, and lossy
JPEG encoding at a given quality. Content transformations act on the abstract
content token; decoding and encoding may fail (raise), which the engine
catches per image. -/
structure Codec where
  decode : List ℕ → Option PixBuf
  resizeContent : ℕ → ℕ → ℕ → ℕ
  invertContent : ℕ → ℕ
  toRGBContent : ℕ → ℕ
  flattenContent : ℕ → ℕ
  encode : PixBuf → ℤ → Option (List ℕ)

/-- `pil_img.resize((w, h), LANCZOS)`: the result has exactly the requested
dimensions and keeps the color mode. -/
def Codec.resize (c : Codec) (p : PixBuf) (w h : ℕ) : PixBuf :=
  ⟨w, h, p.mode, c.resizeContent p.pix w h⟩

/-- An image object's stored stream payload: the bytes passed to
`doc.update_stream`, plus whether the container has wrapped them in an
additional lossless (zlib/FlateDecode) layer. `update_stream(..., compress=0)`
stores the bytes unwrapped. -/
structure Payload where
  bytes : List ℕ
  flateWrapped : Bool
  deriving DecidableEq, Repr

/-- One image xref object of a document: its xref number, current stream
payload, the bytes `doc.extract_image` yields for it (`none` when extraction
fails or yields nothing), and the dictionary entries the compressor reads
(`/ImageMask`, `/SMask`) and writes (`/Filter`, `/Width`, `/Height`,
`/ColorSpace`, `/BitsPerComponent`, `/DecodeParms`). -/
structure XImage where
  xref : ℕ
  payload : Payload
  extracted : Option (List ℕ)
  isMask : Bool
  smask : Option ℕ
  filter : String
  width : ℕ
  height : ℕ
  colorSpace : String
  bitsPerComponent : String
  decodeParms : String
  deriving DecidableEq, Repr

/-- A parsed document as the engine sees it: per page the xrefs of the images
`page.get_images(full=True)` lists, and the xref table of image objects. -/
structure MDoc where
  pages : List (List ℕ)
  objects : List XImage
  deriving DecidableEq, Repr

/-- Python `int(q)` on a non-negative-denominator rational: truncation toward
zero. -/
def truncQ (q : ℚ) : ℤ :=
  q.num / (q.den : ℤ)

/-- `max(1, int(dim * scale))` from the scaling branch of
`_rebuild_pdf_with_quality`. -/
def scaledDim (d : ℕ) (s : ℚ) : ℕ :=
  (max 1 (truncQ (d * s))).toNat

/-- Mode normalization before JPEG encoding, as in
`_rebuild_pdf_with_quality`: CMYK is inverted (Pillow stores CMYK inverted)
and converted to RGB; RGBA is flattened onto a white background; any other
mode that is neither RGB nor L is converted to RGB. -/
def normalizeMode (c : Codec) (p : PixBuf) : PixBuf :=
  if p.mode = PMode.CMYK then
    ⟨p.width, p.height, PMode.RGB, c.toRGBContent (c.invertContent p.pix)⟩
  else if p.mode = PMode.RGBA then
    ⟨p.width, p.height, PMode.RGB, c.flattenContent p.pix⟩
  else if p.mode ≠ PMode.RGB ∧ p.mode ≠ PMode.L then
    ⟨p.width, p.height, PMode.RGB, c.toRGBContent p.pix⟩
  else p

/-- The resampling step: when `scale < 1.0` resize to
`max(1, int(width*scale)) × max(1, int(height*scale))`, otherwise keep the
buffer. -/
def scaledPix (c : Codec) (s : ℚ) (p : PixBuf) : PixBuf :=
  if s < 1 then c.resize p (scaledDim p.width s) (scaledDim p.height s) else p

/-- The per-xref `try` block of `_rebuild_pdf_with_quality`, up to the point
where new stream content exists: `none` when the image is skipped (no
extractable bytes, raw size below 4096, `/ImageMask true`) or when decoding or
JPEG encoding fails; otherwise the new width and height, the normalized pixel
buffer, and the JPEG bytes. The `/SMask` branch of the source is a no-op and
contributes nothing here. -/
def reencodeResult (c : Codec) (quality : ℤ) (scale : ℚ) (img : XImage) :
    Option (ℕ × ℕ × PixBuf × List ℕ) :=
  match img.extracted with
  | none => none
  | some data =>
    if data.length < 4096 then none
    else if img.isMask then none
    else
      match c.decode data with
      | none => none
      | some pix0 =>
        let pix1 := scaledPix c scale pix0
        let pix2 := normalizeMode c pix1
        match c.encode pix2 quality with
        | none => none
        | some jpeg => some (pix1.width, pix1.height, pix2, jpeg)

/-- Effect of the loop body of `_rebuild_pdf_with_quality` on a single image
object: skipped or failing images are returned untouched, otherwise the stream
is replaced uncompressed (`update_stream(..., compress=0)`) and the dictionary
keys are rewritten to describe the new JPEG payload. -/
def rebuildImage (c : Codec) (quality : ℤ) (scale : ℚ) (img : XImage) : XImage :=
  match reencodeResult c quality scale img with
  | none => img
  | some (nw, nh, pix, jpeg) =>
    { img with
      payload := ⟨jpeg, false⟩
      filter := "/DCTDecode"
      width := nw
      height := nh
      colorSpace := if pix.mode = PMode.L then "/DeviceGray" else "/DeviceRGB"
      bitsPerComponent := "8"
      decodeParms := "null" }

/-- The observable effects of a compression run on the outside world: opening
the input file (`fitz.open(path)`), parsing an in-memory byte stream
(`fitz.open(stream=...)`), and writing bytes to a path (`_write_bytes`). -/
inductive Eff
  | openFile (path : String)
  | parseStream
  | write (path : String) (data : List ℕ)
  deriving DecidableEq, Repr

/-- Run trace: how many times the cancellation callback has been called, and
the effects performed so far. -/
structure Tr where
  polls : ℕ
  effs : List Eff
  deriving DecidableEq, Repr

/-- Append an effect to the trace. -/
def emit (t : Tr) (e : Eff) : Tr :=
  { t with effs := t.effs ++ [e] }

/-- `_check_cancel`: call the callback if one was supplied (`cb() if cb else
False`); with `none` no call is made and the poll count does not advance. The
callback is modelled as a function of the number of calls made so far. -/
def pollCancel (cancel : Option (ℕ → Bool)) (t : Tr) : Bool × Tr :=
  match cancel with
  | none => (false, t)
  | some f => (f t.polls, { t with polls := t.polls + 1 })

/-- `doc.update_stream` / `doc.xref_set_key` as used by the loop body: rewrite
the object(s) carrying the given xref with `f`, leave every other object
alone. -/
def updateXref (d : MDoc) (x : ℕ) (f : XImage → XImage) : MDoc :=
  { d with objects := d.objects.map fun o => if o.xref = x then f o else o }

/-- `_get_image_xrefs_from_bytes` on a parsed document (and the identical
inventory loop at the top of `_rebuild_pdf_with_quality`): collect the image
xrefs of every page into a set and return them sorted — the sorted,
deduplicated image inventory. -/
def getImageXrefs (pages : List (List ℕ)) : List ℕ :=
  (pages.flatten.dedup).insertionSort (· ≤ ·)

/-- The per-image loop of `_rebuild_pdf_with_quality`: before each image the
cancellation callback is polled; a positive poll abandons the rebuild
(`return None`), otherwise the image object is rewritten in place and the
loop continues with the remaining xrefs. -/
def rebuildLoop (c : Codec) (cancel : Option (ℕ → Bool)) (q : ℤ) (s : ℚ) :
    List ℕ → MDoc → Tr → Option MDoc × Tr
  | [], d, t => (some d, t)
  | x :: xs, d, t =>
    let p := pollCancel cancel t
    if p.1 then (none, p.2)
    else rebuildLoop c cancel q s xs (updateXref d x (rebuildImage c q s)) p.2

/-- The pure content of the per-image loop (no cancellation): fold the
per-image rewrite over the xref list. -/
def rebuildFold (c : Codec) (q : ℤ) (s : ℚ) (xs : List ℕ) (d : MDoc) : MDoc :=
  xs.foldl (fun d x => updateXref d x (rebuildImage c q s)) d

/-- `doc.save(..., deflate=...)` viewed on the stored stream payloads: with
`deflate=True` PyMuPDF wraps stream payloads in a zlib/FlateDecode layer
(without touching the `/Filter` entry — exactly the corruption the source
comments warn about); with `deflate=False` every payload is kept
byte-for-byte as stored. -/
def saveDoc (d : MDoc) (deflate : Bool) : MDoc :=
  if deflate then
    { d with objects := d.objects.map fun o =>
        { o with payload := ⟨o.payload.bytes, true⟩ } }
  else d

/-- The document-access world one compression run sees: the input file's size,
how `fitz.open` behaves on it (`openErr`), whether it is encrypted, its page
count, the bytes `_apply_lossless_optimization` produces (a library-internal
save; abstract), the parser for in-memory streams, the serializer producing
the bytes of a saved document, the human-readable size formatter (`_fmt`,
float formatting; abstract), and the image codec. -/
structure World where
  inputSize : ℕ
  openErr : Option String
  encrypted : Bool
  pageCount : ℕ
  losslessBytes : List ℕ
  parse : List ℕ → MDoc
  serialize : MDoc → List ℕ
  fmt : ℕ → String
  codec : Codec

/-- `_rebuild_pdf_with_quality`, on the document view: parse the source bytes,
re-encode every inventoried image at the given quality and scale, and save
with `garbage=4, deflate=False` — the final save never re-wraps payloads. -/
def rebuildPdfDoc (w : World) (src : List ℕ) (q : ℤ) (s : ℚ)
    (cancel : Option (ℕ → Bool)) (t : Tr) : Option MDoc × Tr :=
  let d := w.parse src
  match rebuildLoop w.codec cancel q s (getImageXrefs d.pages) d (emit t .parseStream) with
  | (none, t') => (none, t')
  | (some d', t') => (some (saveDoc d' false), t')

/-- `_rebuild_pdf_with_quality`: the serialized bytes of the rebuilt document,
or `none` on cancellation. -/
def rebuildPdf (w : World) (src : List ℕ) (q : ℤ) (s : ℚ)
    (cancel : Option (ℕ → Bool)) (t : Tr) : Option (List ℕ) × Tr :=
  match rebuildPdfDoc w src q s cancel t with
  | (none, t') => (none, t')
  | (some d', t') => (some (w.serialize d'), t')

/-- The bytes a non-cancelled rebuild yields (pure view of `rebuildPdf` with
no cancellation callback). -/
def rebuildBytes (w : World) (src : List ℕ) (q : ℤ) (s : ℚ) : List ℕ :=
  w.serialize (saveDoc
    (rebuildFold w.codec q s (getImageXrefs (w.parse src).pages) (w.parse src)) false)

/-- The convergence test of both searches:
`best_result and abs(len(best_result) - target_bytes) <= tolerance`. Python
truthiness of bytes is part of the test: a `None` best-so-far and an EMPTY
best-so-far byte stream are both falsy, so neither triggers the stop. -/
def withinTol (best : Option (List ℕ)) (target tol : ℤ) : Bool :=
  match best with
  | some bb => ¬ bb = [] ∧ |(bb.length : ℤ) - target| ≤ tol
  | none => false

/-- The iteration loop of `_binary_search_quality`: poll cancellation, rebuild
at `mid = (lo + hi) // 2` (the rebuild is NOT passed the cancellation
callback, as in the source), record a fitting result as best-so-far and raise
`lo`, otherwise lower `hi`; stop on convergence within tolerance, on
`lo > hi`, or when the iteration budget runs out. -/
def qualityLoop (w : World) (src : List ℕ) (target tol : ℤ)
    (cancel : Option (ℕ → Bool)) :
    ℕ → ℤ → ℤ → Option (List ℕ) → ℤ → Tr → (Option (List ℕ) × ℤ) × Tr
  | 0, _, _, best, bestQ, t => ((best, bestQ), t)
  | fuel + 1, lo, hi, best, bestQ, t =>
    let p := pollCancel cancel t
    if p.1 then ((none, 0), p.2)
    else
      let mid := (lo + hi).fdiv 2
      match rebuildPdf w src mid 1 none p.2 with
      | (none, t') => ((none, 0), t')
      | (some res, t') =>
        let best' := if (res.length : ℤ) ≤ target then some res else best
        let bestQ' := if (res.length : ℤ) ≤ target then mid else bestQ
        let lo' := if (res.length : ℤ) ≤ target then mid + 1 else lo
        let hi' := if (res.length : ℤ) ≤ target then hi else mid - 1
        if withinTol best' target tol then ((best', bestQ'), t')
        else if lo' > hi' then ((best', bestQ'), t')
        else qualityLoop w src target tol cancel fuel lo' hi' best' bestQ' t'

/-- `_binary_search_quality`: run the quality loop from `[min_q, max_q]` with
no candidate and `best_quality = max_q`. -/
def binarySearchQuality (w : World) (src : List ℕ) (target minQ maxQ tol : ℤ)
    (maxIter : ℕ) (cancel : Option (ℕ → Bool)) (t : Tr) :
    (Option (List ℕ) × ℤ) × Tr :=
  qualityLoop w src target tol cancel maxIter minQ maxQ none maxQ t

/-- The iteration loop of `_binary_search_scale`: same shape as the quality
loop but over the scale range, rebuilding at the fixed quality handed in,
with a fixed `0.05` step for the `lo`/`hi` adjustment. -/
def scaleLoop (w : World) (src : List ℕ) (target : ℤ) (q : ℤ) (tol : ℤ)
    (cancel : Option (ℕ → Bool)) :
    ℕ → ℚ → ℚ → Option (List ℕ) → ℚ → Tr → (Option (List ℕ) × ℚ) × Tr
  | 0, _, _, best, bestS, t => ((best, bestS), t)
  | fuel + 1, lo, hi, best, bestS, t =>
    let p := pollCancel cancel t
    if p.1 then ((none, 0), p.2)
    else
      let mid := (lo + hi) / 2
      match rebuildPdf w src q mid none p.2 with
      | (none, t') => ((none, 0), t')
      | (some res, t') =>
        let best' := if (res.length : ℤ) ≤ target then some res else best
        let bestS' := if (res.length : ℤ) ≤ target then mid else bestS
        let lo' := if (res.length : ℤ) ≤ target then mid + 1/20 else lo
        let hi' := if (res.length : ℤ) ≤ target then hi else mid - 1/20
        if withinTol best' target tol then ((best', bestS'), t')
        else if lo' > hi' then ((best', bestS'), t')
        else scaleLoop w src target q tol cancel fuel lo' hi' best' bestS' t'

/-- `_binary_search_scale`: run the scale loop from `[min_scale, max_scale]`
with no candidate and `best_scale = max_scale`. -/
def binarySearchScale (w : World) (src : List ℕ) (target : ℤ) (minS maxS : ℚ)
    (q tol : ℤ) (maxIter : ℕ) (cancel : Option (ℕ → Bool)) (t : Tr) :
    (Option (List ℕ) × ℚ) × Tr :=
  scaleLoop w src target q tol cancel maxIter minS maxS none maxS t

/-- `CompressionConfig` (dataclass): target and bounds for one request.
Quality bounds and byte counts are Python integers (`ℤ`); scale bounds are
floats, idealized as exact rationals. -/
structure CompressionConfig where
  input_path : String
  output_path : String
  target_size_bytes : ℤ
  min_quality : ℤ := 5
  max_quality : ℤ := 95
  min_scale : ℚ := 1/10
  max_scale : ℚ := 1
  binary_search_tolerance_bytes : ℤ := 102400
  max_iterations : ℕ := 12
  deriving DecidableEq, Repr

/-- `CompressionResult` (dataclass). The source's `compression_ratio` float
field is carried here as the exact rational `compression_pct`. -/
structure CompressionResult where
  success : Bool
  output_path : String := ""
  original_size : ℕ := 0
  compressed_size : ℕ := 0
  compression_pct : ℚ := 0
  quality_used : ℤ := 0
  scale_used : ℚ := 1
  pages_processed : ℕ := 0
  images_found : ℕ := 0
  error_message : String := ""
  already_small : Bool := false
  target_impossible : Bool := false
  minimum_achievable_size : ℕ := 0
  text_only : Bool := false
  deriving DecidableEq, Repr

/-- `PDFCompressor._ratio`: percentage saved, `(1 - compressed/original)*100`,
and `0` when the original size is `0`. -/
def pctReduction (original compressed : ℕ) : ℚ :=
  if original = 0 then 0 else (1 - (compressed : ℚ) / (original : ℚ)) * 100

/-- Steps 4-6 of `PDFCompressor.compress` — the quality search, the scale
search, and the impossible-target report, with the cancellation checks
between them — factored out over the trace at which the search phase starts. -/
def compressSearchPhase (w : World) (cfg : CompressionConfig)
    (cancel : Option (ℕ → Bool)) (original pages : ℕ) (lossless : List ℕ)
    (imageCount : ℕ) (t : Tr) : CompressionResult × Tr :=
  let bq := binarySearchQuality w lossless cfg.target_size_bytes
    cfg.min_quality cfg.max_quality
    cfg.binary_search_tolerance_bytes cfg.max_iterations cancel t
  let p3 := pollCancel cancel bq.2
  if p3.1 then ({ success := false, error_message := "Cancelled." }, p3.2)
  else
    match bq.1.1 with
    | some res =>
      let t5 := emit p3.2 (.write cfg.output_path res)
      ({ success := true, output_path := cfg.output_path,
         original_size := original, compressed_size := res.length,
         compression_pct := pctReduction original res.length,
         quality_used := bq.1.2, scale_used := 1,
         pages_processed := pages, images_found := imageCount }, t5)
    | none =>
      let bs := binarySearchScale w lossless cfg.target_size_bytes
        cfg.min_scale cfg.max_scale cfg.min_quality
        cfg.binary_search_tolerance_bytes
        (min cfg.max_iterations 8) cancel p3.2
      let p4 := pollCancel cancel bs.2
      if p4.1 then
        ({ success := false, error_message := "Cancelled." }, p4.2)
      else
        match bs.1.1 with
        | some res =>
          let t6 := emit p4.2 (.write cfg.output_path res)
          ({ success := true, output_path := cfg.output_path,
             original_size := original, compressed_size := res.length,
             compression_pct := pctReduction original res.length,
             quality_used := cfg.min_quality, scale_used := bs.1.2,
             pages_processed := pages,
             images_found := imageCount }, t6)
        | none =>
          let mres := rebuildPdf w lossless cfg.min_quality
            cfg.min_scale none p4.2
          let minSize := match mres.1 with
            | some bb => if bb.length = 0 then lossless.length else bb.length
            | none => lossless.length
          ({ success := false, original_size := original,
             compressed_size := minSize, pages_processed := pages,
             images_found := imageCount, target_impossible := true,
             minimum_achievable_size := minSize,
             error_message :=
               "Cannot compress to target. Minimum achievable size is "
                 ++ w.fmt minSize ++ "." }, mres.2)

/-- `PDFCompressor.compress`: the full orchestration pipeline, translated
branch by branch from the source. The trace `t` records the effects performed
(file opens, stream parses, writes) and the number of cancellation polls;
progress reporting has no effect on control flow and is not modelled. -/
def compress (w : World) (cfg : CompressionConfig)
    (cancel : Option (ℕ → Bool)) (t : Tr) : CompressionResult × Tr :=
  let original := w.inputSize
  if (original : ℤ) ≤ cfg.target_size_bytes then
    ({ success := true, output_path := cfg.input_path, original_size := original,
       compressed_size := original, compression_pct := 0,
       already_small := true }, t)
  else
    let t1 := emit t (.openFile cfg.input_path)
    match w.openErr with
    | some e => ({ success := false, error_message := "Cannot open PDF: " ++ e }, t1)
    | none =>
      if w.encrypted then
        ({ success := false, error_message := "PDF is password-protected." }, t1)
      else
        let pages := w.pageCount
        let p1 := pollCancel cancel t1
        if p1.1 then ({ success := false, error_message := "Cancelled." }, p1.2)
        else
          let t2 := emit p1.2 (.openFile cfg.input_path)
          let lossless := w.losslessBytes
          if (lossless.length : ℤ) ≤ cfg.target_size_bytes then
            let t3 := emit t2 (.write cfg.output_path lossless)
            ({ success := true, output_path := cfg.output_path,
               original_size := original, compressed_size := lossless.length,
               compression_pct := pctReduction original lossless.length,
               quality_used := 100, scale_used := 1,
               pages_processed := pages }, t3)
          else
            let t3 := emit t2 .parseStream
            let imageCount := (getImageXrefs (w.parse lossless).pages).length
            if imageCount = 0 then
              let t4 := emit t3 (.write cfg.output_path lossless)
              ({ success := true, output_path := cfg.output_path,
                 original_size := original, compressed_size := lossless.length,
                 compression_pct := pctReduction original lossless.length,
                 pages_processed := pages, images_found := 0,
                 text_only := true }, t4)
            else
              let p2 := pollCancel cancel t3
              if p2.1 then ({ success := false, error_message := "Cancelled." }, p2.2)
              else
                compressSearchPhase w cfg cancel original pages lossless imageCount p2.2

/-- Modelled from the spec, §4.4: the stop test exactly as the spec words
it — "when the best-so-far is within tolerance of the target" — with no
emptiness condition on the best-so-far stream. -/
def specWithinTol (best : Option (List ℕ)) (target tol : ℤ) : Bool :=
  match best with
  | some bb => |(bb.length : ℤ) - target| ≤ tol
  | none => false

/-- Modelled from the spec, §4.4 (Quality Search Controller), as the second
definition of the refinement claim C2: a standard integer binary search over
an abstract re-encoder `f` — at each step re-encode at `mid = (lo+hi)/2`; if
the resulting size is at most the target, record the result as best-so-far
and set `lo = mid+1`, otherwise set `hi = mid-1`; stop when `lo > hi`, when
the best-so-far is within tolerance of the target, or when the iteration
budget is exhausted; return the best-so-far stream with its quality, or no
candidate if no tried quality ever met the target. -/
def qualitySearchSpec (f : ℤ → List ℕ) (target tol : ℤ) :
    ℕ → ℤ → ℤ → Option (List ℕ × ℤ) → Option (List ℕ × ℤ)
  | 0, _, _, best => best
  | fuel + 1, lo, hi, best =>
    let mid := (lo + hi).fdiv 2
    let res := f mid
    let best' := if (res.length : ℤ) ≤ target then some (res, mid) else best
    let lo' := if (res.length : ℤ) ≤ target then mid + 1 else lo
    let hi' := if (res.length : ℤ) ≤ target then hi else mid - 1
    if specWithinTol (best'.map Prod.fst) target tol then best'
    else if lo' > hi' then best'
    else qualitySearchSpec f target tol fuel lo' hi' best'

/-- The spec's quality search amended per the C2 counterexample: identical to
`qualitySearchSpec` except that the tolerance stop uses the engine's actual
convergence test `withinTol`, which — through Python bytes truthiness — also
requires the best-so-far stream to be non-empty. -/
def qualitySearchSpecAmended (f : ℤ → List ℕ) (target tol : ℤ) :
    ℕ → ℤ → ℤ → Option (List ℕ × ℤ) → Option (List ℕ × ℤ)
  | 0, _, _, best => best
  | fuel + 1, lo, hi, best =>
    let mid := (lo + hi).fdiv 2
    let res := f mid
    let best' := if (res.length : ℤ) ≤ target then some (res, mid) else best
    let lo' := if (res.length : ℤ) ≤ target then mid + 1 else lo
    let hi' := if (res.length : ℤ) ≤ target then hi else mid - 1
    if withinTol (best'.map Prod.fst) target tol then best'
    else if lo' > hi' then best'
    else qualitySearchSpecAmended f target tol fuel lo' hi' best'

/-! ### Concrete fixtures used by witnesses and counterexamples -/

/-- A concrete codec: every byte stream decodes to a 3×5 RGB buffer, every
encode yields the two-byte stream `[7, 7]`. -/
def cFix : Codec where
  decode := fun _ => some ⟨3, 5, PMode.RGB, 0⟩
  resizeContent := fun p _ _ => p + 1
  invertContent := id
  toRGBContent := id
  flattenContent := id
  encode := fun _ _ => some [7, 7]

/-- 4096 bytes — exactly at the re-encoding threshold. -/
def bigBytes : List ℕ := List.replicate 4096 1

/-- Image object 1: references object 2 as its soft mask (`/SMask 2 0 R`). -/
def imgFixA : XImage :=
  ⟨1, ⟨[1], false⟩, some bigBytes, false, some 2, "/FlateDecode", 3, 5,
   "/ICCBased", "8", "null"⟩

/-- Image object 2: the soft mask of object 1; large, not an `/ImageMask`. -/
def imgFixB : XImage :=
  ⟨2, ⟨[2], false⟩, some bigBytes, false, none, "/FlateDecode", 3, 5,
   "/ICCBased", "8", "null"⟩

/-- A one-page document holding both fixture images. -/
def docFix : MDoc := ⟨[[1, 2]], [imgFixA, imgFixB]⟩

/-- `imgFixA` after re-encoding at full scale. -/
def imgFixA' : XImage :=
  ⟨1, ⟨[7, 7], false⟩, some bigBytes, false, some 2, "/DCTDecode", 3, 5,
   "/DeviceRGB", "8", "null"⟩

/-- `imgFixB` after re-encoding at full scale. -/
def imgFixB' : XImage :=
  ⟨2, ⟨[7, 7], false⟩, some bigBytes, false, none, "/DCTDecode", 3, 5,
   "/DeviceRGB", "8", "null"⟩

/-- `docFix` after a full-scale rebuild. -/
def docFixRebuilt : MDoc := ⟨[[1, 2]], [imgFixA', imgFixB']⟩

/-- A concrete world around `docFix`: 100-byte input, opens fine, not
encrypted, 60-byte lossless baseline. -/
def wFix : World where
  inputSize := 100
  openErr := none
  encrypted := false
  pageCount := 1
  losslessBytes := List.replicate 60 0
  parse := fun _ => docFix
  serialize := fun d => List.replicate d.objects.length 9
  fmt := fun _ => "?"
  codec := cFix

/-- A concrete world whose document has zero pages (and hence zero images),
opens fine and is not encrypted. -/
def wZeroPages : World where
  inputSize := 100
  openErr := none
  encrypted := false
  pageCount := 0
  losslessBytes := List.replicate 60 0
  parse := fun _ => ⟨[], []⟩
  serialize := fun _ => []
  fmt := fun _ => "?"
  codec := cFix

/-- `wZeroPages` with a 30-byte input file: below the 50-byte target. -/
def wSmallFix : World := { wZeroPages with inputSize := 30 }

/-- A concrete 50-byte-target configuration. -/
def cfgFix : CompressionConfig :=
  { input_path := "in.pdf", output_path := "out.pdf", target_size_bytes := 50 }

/-- A monotone cancellation callback: false for the first two polls, true
from the third on. -/
def fCancelFix : ℕ → Bool := fun i => decide (2 ≤ i)

/-! ### Structural lemmas about the re-encoder -/

theorem rebuildImage_xref (c : Codec) (q : ℤ) (s : ℚ) (img : XImage) :
    (rebuildImage c q s img).xref = img.xref := by
  unfold rebuildImage
  split <;> rfl

theorem rebuildLoop_none (c : Codec) (q : ℤ) (s : ℚ) :
    ∀ (xs : List ℕ) (d : MDoc) (t : Tr),
      rebuildLoop c none q s xs d t = (some (rebuildFold c q s xs d), t) := by
  intro xs
  induction xs with
  | nil => intro d t; rfl
  | cons x xs ih =>
    intro d t
    simp only [rebuildLoop, pollCancel, rebuildFold, List.foldl_cons]
    exact ih _ _

theorem rebuildLoop_some (c : Codec) (cancel : Option (ℕ → Bool)) (q : ℤ) (s : ℚ) :
    ∀ (xs : List ℕ) (d : MDoc) (t : Tr) (d' : MDoc) (t' : Tr),
      rebuildLoop c cancel q s xs d t = (some d', t') →
      d' = rebuildFold c q s xs d := by
  intro xs
  induction xs with
  | nil =>
    intro d t d' t' h
    simp only [rebuildLoop] at h
    cases h
    rfl
  | cons x xs ih =>
    intro d t d' t' h
    simp only [rebuildLoop] at h
    by_cases hp : (pollCancel cancel t).1
    · rw [if_pos hp] at h; cases h
    · rw [if_neg hp] at h
      simpa only [rebuildFold, List.foldl_cons] using ih _ _ _ _ h

theorem rebuildFold_pages (c : Codec) (q : ℤ) (s : ℚ) :
    ∀ (xs : List ℕ) (d : MDoc), (rebuildFold c q s xs d).pages = d.pages := by
  intro xs
  induction xs with
  | nil => intro d; rfl
  | cons x xs ih =>
    intro d
    simp only [rebuildFold, List.foldl_cons] at *
    rw [ih]
    rfl

theorem rebuildFold_objects (c : Codec) (q : ℤ) (s : ℚ) :
    ∀ (xs : List ℕ) (d : MDoc), xs.Nodup →
      (rebuildFold c q s xs d).objects =
        d.objects.map fun o =>
          if o.xref ∈ xs then rebuildImage c q s o else o := by
  intro xs
  induction xs with
  | nil =>
    intro d _
    simp [rebuildFold]
  | cons x xs ih =>
    intro d hnd
    rcases List.nodup_cons.mp hnd with ⟨hx, hnd'⟩
    simp only [rebuildFold, List.foldl_cons]
    rw [show (List.foldl (fun d x => updateXref d x (rebuildImage c q s)) (updateXref d x (rebuildImage c q s)) xs) = rebuildFold c q s xs (updateXref d x (rebuildImage c q s)) from rfl]
    rw [ih _ hnd']
    simp only [updateXref, List.map_map]
    refine List.map_congr_left ?_
    intro o _
    by_cases hox : o.xref = x
    · have hmem : o.xref ∈ x :: xs := by simp [hox]
      simp only [Function.comp_apply, if_pos hox, hmem, if_pos]
      have : (rebuildImage c q s o).xref ∉ xs := by
        rw [rebuildImage_xref, hox]; exact hx
      simp [this]
    · simp only [Function.comp_apply, if_neg hox]
      by_cases hmem : o.xref ∈ xs
      · have : o.xref ∈ x :: xs := List.mem_cons_of_mem _ hmem
        simp [hmem, this]
      · have : o.xref ∉ x :: xs := by
          simp [List.mem_cons, hox, hmem]
        simp [hmem, this]

theorem getImageXrefs_sorted (pages : List (List ℕ)) :
    (getImageXrefs pages).Sorted (· ≤ ·) :=
  List.sorted_insertionSort _ _

theorem getImageXrefs_nodup (pages : List (List ℕ)) :
    (getImageXrefs pages).Nodup :=
  ((List.perm_insertionSort _ _).nodup_iff).mpr (List.nodup_dedup _)

theorem mem_getImageXrefs (pages : List (List ℕ)) (x : ℕ) :
    x ∈ getImageXrefs pages ↔ ∃ p ∈ pages, x ∈ p := by
  rw [getImageXrefs, (List.perm_insertionSort _ _).mem_iff, List.mem_dedup,
    List.mem_flatten]

theorem rebuildPdf_none (w : World) (src : List ℕ) (q : ℤ) (s : ℚ) (t : Tr) :
    rebuildPdf w src q s none t =
      (some (rebuildBytes w src q s), emit t .parseStream) := by
  simp only [rebuildPdf, rebuildPdfDoc, rebuildBytes, rebuildLoop_none]

/-! ### Trace extension: poll counts only grow and no writes are added -/

/-- `t'` extends `t`: the poll count has not decreased and the effects added
on top of `t.effs` contain no write. -/
def StepTr (t t' : Tr) : Prop :=
  t.polls ≤ t'.polls ∧
    ∃ l, t'.effs = t.effs ++ l ∧ ∀ p d, Eff.write p d ∉ l

theorem StepTr.refl (t : Tr) : StepTr t t :=
  ⟨le_refl _, [], by simp, by simp⟩

theorem StepTr.trans {t₁ t₂ t₃ : Tr} (h₁ : StepTr t₁ t₂) (h₂ : StepTr t₂ t₃) :
    StepTr t₁ t₃ := by
  obtain ⟨hp₁, l₁, he₁, hw₁⟩ := h₁
  obtain ⟨hp₂, l₂, he₂, hw₂⟩ := h₂
  refine ⟨le_trans hp₁ hp₂, l₁ ++ l₂, ?_, ?_⟩
  · rw [he₂, he₁, List.append_assoc]
  · intro p d hmem
    rcases List.mem_append.mp hmem with h | h
    · exact hw₁ p d h
    · exact hw₂ p d h

theorem StepTr.emit_openFile (t : Tr) (p : String) :
    StepTr t (emit t (.openFile p)) :=
  ⟨le_refl _, [.openFile p], rfl, by simp⟩

theorem StepTr.emit_parseStream (t : Tr) :
    StepTr t (emit t .parseStream) :=
  ⟨le_refl _, [.parseStream], rfl, by simp⟩

theorem StepTr.poll (cancel : Option (ℕ → Bool)) (t : Tr) :
    StepTr t (pollCancel cancel t).2 := by
  cases cancel with
  | none => exact StepTr.refl t
  | some f => exact ⟨Nat.le_succ _, [], by simp [pollCancel], by simp⟩

theorem rebuildLoop_stepTr (c : Codec) (cancel : Option (ℕ → Bool)) (q : ℤ) (s : ℚ) :
    ∀ (xs : List ℕ) (d : MDoc) (t : Tr),
      StepTr t (rebuildLoop c cancel q s xs d t).2 := by
  intro xs
  induction xs with
  | nil => intro d t; exact StepTr.refl t
  | cons x xs ih =>
    intro d t
    simp only [rebuildLoop]
    by_cases hp : (pollCancel cancel t).1
    · rw [if_pos hp]
      exact StepTr.poll cancel t
    · rw [if_neg hp]
      exact (StepTr.poll cancel t).trans (ih _ _)

theorem rebuildPdf_stepTr (w : World) (src : List ℕ) (q : ℤ) (s : ℚ)
    (cancel : Option (ℕ → Bool)) (t : Tr) :
    StepTr t (rebuildPdf w src q s cancel t).2 := by
  simp only [rebuildPdf, rebuildPdfDoc]
  have h := (StepTr.emit_parseStream t).trans
    (rebuildLoop_stepTr w.codec cancel q s
      (getImageXrefs (w.parse src).pages) (w.parse src) (emit t .parseStream))
  rcases hrl : rebuildLoop w.codec cancel q s
      (getImageXrefs (w.parse src).pages) (w.parse src) (emit t .parseStream)
    with ⟨o, t'⟩
  rw [hrl] at h
  cases o <;> exact h

theorem qualityLoop_stepTr (w : World) (src : List ℕ) (target tol : ℤ)
    (cancel : Option (ℕ → Bool)) :
    ∀ (fuel : ℕ) (lo hi : ℤ) (best : Option (List ℕ)) (bestQ : ℤ) (t : Tr),
      StepTr t (qualityLoop w src target tol cancel fuel lo hi best bestQ t).2 := by
  intro fuel
  induction fuel with
  | zero => intro lo hi best bestQ t; exact StepTr.refl t
  | succ n ih =>
    intro lo hi best bestQ t
    simp only [qualityLoop]
    by_cases hp : (pollCancel cancel t).1
    · rw [if_pos hp]
      exact StepTr.poll cancel t
    · rw [if_neg hp]
      have hstep := (StepTr.poll cancel t).trans
        (rebuildPdf_stepTr w src ((lo + hi).fdiv 2) 1 none (pollCancel cancel t).2)
      rcases hrb : rebuildPdf w src ((lo + hi).fdiv 2) 1 none (pollCancel cancel t).2
        with ⟨o, t'⟩
      rw [hrb] at hstep
      cases o with
      | none => exact hstep
      | some res =>
        dsimp only
        by_cases h₁ : withinTol (if (res.length : ℤ) ≤ target then some res else best) target tol = true
        · rw [if_pos h₁]
          exact hstep
        · rw [if_neg h₁]
          by_cases h₂ : (if (res.length : ℤ) ≤ target then (lo + hi).fdiv 2 + 1 else lo) >
              (if (res.length : ℤ) ≤ target then hi else (lo + hi).fdiv 2 - 1)
          · rw [if_pos h₂]
            exact hstep
          · rw [if_neg h₂]
            exact hstep.trans (ih _ _ _ _ _)

theorem scaleLoop_stepTr (w : World) (src : List ℕ) (target q tol : ℤ)
    (cancel : Option (ℕ → Bool)) :
    ∀ (fuel : ℕ) (lo hi : ℚ) (best : Option (List ℕ)) (bestS : ℚ) (t : Tr),
      StepTr t (scaleLoop w src target q tol cancel fuel lo hi best bestS t).2 := by
  intro fuel
  induction fuel with
  | zero => intro lo hi best bestS t; exact StepTr.refl t
  | succ n ih =>
    intro lo hi best bestS t
    simp only [scaleLoop]
    by_cases hp : (pollCancel cancel t).1
    · rw [if_pos hp]
      exact StepTr.poll cancel t
    · rw [if_neg hp]
      have hstep := (StepTr.poll cancel t).trans
        (rebuildPdf_stepTr w src q ((lo + hi) / 2) none (pollCancel cancel t).2)
      rcases hrb : rebuildPdf w src q ((lo + hi) / 2) none (pollCancel cancel t).2
        with ⟨o, t'⟩
      rw [hrb] at hstep
      cases o with
      | none => exact hstep
      | some res =>
        dsimp only
        by_cases h₁ : withinTol (if (res.length : ℤ) ≤ target then some res else best) target tol = true
        · rw [if_pos h₁]
          exact hstep
        · rw [if_neg h₁]
          by_cases h₂ : (if (res.length : ℤ) ≤ target then (lo + hi) / 2 + 1/20 else lo) >
              (if (res.length : ℤ) ≤ target then hi else (lo + hi) / 2 - 1/20)
          · rw [if_pos h₂]
            exact hstep
          · rw [if_neg h₂]
            exact hstep.trans (ih _ _ _ _ _)

/-! ### Claims C6 and C10: the already-small fast path -/

/-- C6: for every configuration where the original file size is at most the
target size, the run terminates immediately in the already-small state and
the trace is unchanged — no document is opened (no `openFile` effect), no
output file is produced (no `write` effect). -/
theorem c6_already_small_terminates_untouched (w : World) (cfg : CompressionConfig)
    (cancel : Option (ℕ → Bool)) (t : Tr)
    (h : (w.inputSize : ℤ) ≤ cfg.target_size_bytes) :
    (compress w cfg cancel t).1.already_small = true ∧
    (compress w cfg cancel t).1.success = true ∧
    (compress w cfg cancel t).2 = t := by
  simp [compress, h]

theorem c6_witness :
    ((wSmallFix.inputSize : ℤ) ≤ cfgFix.target_size_bytes) ∧
    ((compress wSmallFix cfgFix none ⟨0, []⟩).1.already_small = true ∧
     (compress wSmallFix cfgFix none ⟨0, []⟩).1.success = true ∧
     (compress wSmallFix cfgFix none ⟨0, []⟩).2 = ⟨0, []⟩) :=
  ⟨by decide,
   c6_already_small_terminates_untouched wSmallFix cfgFix none ⟨0, []⟩ (by decide)⟩

/-- C10: for every configuration where the original file size is at most the
target size, the returned result's output path is the input path itself (not
the configured output path), the reported compressed size equals the original
size, and the trace is unchanged — in particular nothing is written to the
configured output path. -/
theorem c10_already_small_reports_input_path (w : World) (cfg : CompressionConfig)
    (cancel : Option (ℕ → Bool)) (t : Tr)
    (h : (w.inputSize : ℤ) ≤ cfg.target_size_bytes) :
    (compress w cfg cancel t).1.output_path = cfg.input_path ∧
    (compress w cfg cancel t).1.compressed_size = w.inputSize ∧
    (compress w cfg cancel t).1.original_size = w.inputSize ∧
    (compress w cfg cancel t).2 = t := by
  simp [compress, h]

theorem c10_witness :
    ((wSmallFix.inputSize : ℤ) ≤ cfgFix.target_size_bytes) ∧
    ((compress wSmallFix cfgFix none ⟨0, []⟩).1.output_path = cfgFix.input_path ∧
     (compress wSmallFix cfgFix none ⟨0, []⟩).1.compressed_size = wSmallFix.inputSize ∧
     (compress wSmallFix cfgFix none ⟨0, []⟩).1.original_size = wSmallFix.inputSize ∧
     (compress wSmallFix cfgFix none ⟨0, []⟩).2 = ⟨0, []⟩) :=
  ⟨by decide,
   c10_already_small_reports_input_path wSmallFix cfgFix none ⟨0, []⟩ (by decide)⟩

/-! ### Evaluation lemmas for the concrete fixtures -/

/-- The pixel buffer `cFix.decode` yields: 3×5, RGB. -/
def pixFix : PixBuf := ⟨3, 5, PMode.RGB, 0⟩

/-- The exact rational 1/2, given in normal form so that it computes. -/
def halfQ : ℚ := ⟨1, 2, by norm_num, by norm_num⟩

theorem halfQ_lt_one : halfQ < 1 := by decide

theorem halfQ_eq : halfQ = 1 / 2 := by
  rw [show halfQ = (⟨1, 2, by norm_num, by norm_num⟩ : ℚ) from rfl,
    Rat.mk'_eq_divInt, Rat.divInt_eq_div]
  norm_num

theorem bigBytes_length : bigBytes.length = 4096 := by
  rw [bigBytes, List.length_replicate]

theorem getImageXrefs_docFix : getImageXrefs docFix.pages = [1, 2] := by decide

theorem reencode_imgFixA :
    reencodeResult cFix 80 1 imgFixA = some (3, 5, pixFix, [7, 7]) := by
  simp [reencodeResult, imgFixA, bigBytes_length, cFix, scaledPix, normalizeMode,
    pixFix, lt_self_iff_false]

theorem reencode_imgFixB :
    reencodeResult cFix 80 1 imgFixB = some (3, 5, pixFix, [7, 7]) := by
  simp [reencodeResult, imgFixB, bigBytes_length, cFix, scaledPix, normalizeMode,
    pixFix, lt_self_iff_false]

theorem rebuildImage_imgFixA : rebuildImage cFix 80 1 imgFixA = imgFixA' := by
  unfold rebuildImage
  rw [reencode_imgFixA]
  rfl

theorem rebuildImage_imgFixB : rebuildImage cFix 80 1 imgFixB = imgFixB' := by
  unfold rebuildImage
  rw [reencode_imgFixB]
  rfl

theorem rebuildPdfDoc_wFix :
    rebuildPdfDoc wFix [0] 80 1 none ⟨0, []⟩ =
      (some docFixRebuilt, ⟨0, [Eff.parseStream]⟩) := by
  simp only [rebuildPdfDoc, rebuildLoop_none, show wFix.parse [0] = docFix from rfl,
    getImageXrefs_docFix]
  simp only [rebuildFold, List.foldl_cons, List.foldl_nil, updateXref,
    show docFix.objects = [imgFixA, imgFixB] from rfl,
    List.map_cons, List.map_nil, show wFix.codec = cFix from rfl]
  norm_num [show imgFixA.xref = 1 from rfl, show imgFixB.xref = 2 from rfl,
    rebuildImage_imgFixA, rebuildImage_imgFixB,
    show imgFixA'.xref = 1 from rfl, saveDoc, docFixRebuilt, emit,
    show docFix.pages = [[1, 2]] from rfl, show imgFixB'.xref = 2 from rfl]

/-- If the per-image pipeline produces nothing, the object is untouched. -/
theorem rebuildImage_of_none {c : Codec} {q : ℤ} {s : ℚ} {img : XImage}
    (h : reencodeResult c q s img = none) : rebuildImage c q s img = img := by
  simp [rebuildImage, h]

unseal Rat.mul in
theorem scaledDim_three_half : scaledDim 3 halfQ = 1 := by decide

unseal Rat.mul in
theorem scaledDim_five_half : scaledDim 5 halfQ = 2 := by decide

theorem reencode_imgFixA_half :
    reencodeResult cFix 80 halfQ imgFixA =
      some (1, 2, ⟨1, 2, PMode.RGB, 1⟩, [7, 7]) := by
  simp [reencodeResult, imgFixA, bigBytes_length, cFix, scaledPix, normalizeMode,
    halfQ_lt_one, scaledDim_three_half, scaledDim_five_half, Codec.resize]

theorem rebuildImage_imgFixA_half_width :
    (rebuildImage cFix 80 halfQ imgFixA).width = 1 := by
  unfold rebuildImage
  rw [reencode_imgFixA_half]

theorem rebuildImage_imgFixA_half_height :
    (rebuildImage cFix 80 halfQ imgFixA).height = 2 := by
  unfold rebuildImage
  rw [reencode_imgFixA_half]

/-! ### Claim C7: scaled dimensions — truncation, not rounding -/

theorem round_width_half : round ((pixFix.width : ℚ) * halfQ) = 2 := by
  have h3 : (pixFix.width : ℚ) = 3 := by norm_num [pixFix]
  rw [h3, halfQ_eq, round_eq]
  norm_num

theorem round_height_half : round ((pixFix.height : ℚ) * halfQ) = 3 := by
  have h5 : (pixFix.height : ℚ) = 5 := by norm_num [pixFix]
  rw [h5, halfQ_eq, round_eq]
  norm_num

/-- C7 counterexample: re-encoding the fixture image (3×5 pixels) at scale 1/2
stores width 1 and height 2 — `max(1, int(dim*scale))`, truncation toward
zero — while the claimed `round(width·scale) × round(height·scale)` dimensions
are 2 × 3, so the claim as stated is false at this input. -/
theorem c7_counterexample :
    cFix.decode bigBytes = some pixFix ∧
    (rebuildImage cFix 80 halfQ imgFixA).width = 1 ∧
    (rebuildImage cFix 80 halfQ imgFixA).height = 2 ∧
    round ((pixFix.width : ℚ) * halfQ) = 2 ∧
    round ((pixFix.height : ℚ) * halfQ) = 3 ∧
    (rebuildImage cFix 80 halfQ imgFixA).width ≠
      (round ((pixFix.width : ℚ) * halfQ)).toNat ∧
    (rebuildImage cFix 80 halfQ imgFixA).height ≠
      (round ((pixFix.height : ℚ) * halfQ)).toNat := by
  refine ⟨rfl, rebuildImage_imgFixA_half_width, rebuildImage_imgFixA_half_height,
    round_width_half, round_height_half, ?_, ?_⟩
  · rw [rebuildImage_imgFixA_half_width, round_width_half]
    decide
  · rw [rebuildImage_imgFixA_half_height, round_height_half]
    decide

/-- C7 amended: for every image re-encoded with a scale factor strictly less
than 1.0, the pixel buffer is resampled to
`max(1, trunc(width·scale)) × max(1, trunc(height·scale))` — truncation toward
zero clamped to at least 1, not rounding — and those resulting dimensions are
recorded back into the image object's declared width and height metadata. -/
theorem c7_scale_truncates_and_records (c : Codec) (q : ℤ) (s : ℚ)
    (img : XImage) (data : List ℕ) (p0 : PixBuf) (jpeg : List ℕ)
    (hx : img.extracted = some data) (hlen : ¬ data.length < 4096)
    (hmask : img.isMask = false) (hdec : c.decode data = some p0) (hs : s < 1)
    (henc : c.encode (normalizeMode c (scaledPix c s p0)) q = some jpeg) :
    (scaledPix c s p0).width = (max 1 (truncQ ((p0.width : ℚ) * s))).toNat ∧
    (scaledPix c s p0).height = (max 1 (truncQ ((p0.height : ℚ) * s))).toNat ∧
    (rebuildImage c q s img).width = (scaledPix c s p0).width ∧
    (rebuildImage c q s img).height = (scaledPix c s p0).height := by
  have hre : reencodeResult c q s img =
      some ((scaledPix c s p0).width, (scaledPix c s p0).height,
        normalizeMode c (scaledPix c s p0), jpeg) := by
    simp [reencodeResult, hx, hlen, hmask, hdec, henc]
  refine ⟨?_, ?_, ?_, ?_⟩
  · simp [scaledPix, hs, Codec.resize, scaledDim]
  · simp [scaledPix, hs, Codec.resize, scaledDim]
  · simp [rebuildImage, hre]
  · simp [rebuildImage, hre]

theorem c7_witness :
    (halfQ < 1) ∧
    imgFixA.extracted = some bigBytes ∧
    ¬ bigBytes.length < 4096 ∧
    imgFixA.isMask = false ∧
    cFix.decode bigBytes = some pixFix ∧
    cFix.encode (normalizeMode cFix (scaledPix cFix halfQ pixFix)) 80 = some [7, 7] ∧
    ((scaledPix cFix halfQ pixFix).width =
        (max 1 (truncQ ((pixFix.width : ℚ) * halfQ))).toNat ∧
      (scaledPix cFix halfQ pixFix).height =
        (max 1 (truncQ ((pixFix.height : ℚ) * halfQ))).toNat ∧
      (rebuildImage cFix 80 halfQ imgFixA).width = (scaledPix cFix halfQ pixFix).width ∧
      (rebuildImage cFix 80 halfQ imgFixA).height = (scaledPix cFix halfQ pixFix).height) :=
  ⟨halfQ_lt_one, rfl, by rw [bigBytes_length]; decide, rfl, rfl, rfl,
   c7_scale_truncates_and_records cFix 80 halfQ imgFixA bigBytes pixFix [7, 7]
     rfl (by rw [bigBytes_length]; decide) rfl rfl halfQ_lt_one rfl⟩

/-! ### Claim C4: inventory and exclusion rules -/

/-- C4 counterexample: in the fixture document, object 2 is referenced as
object 1's soft mask (`imgFixA.smask = some 2`), yet a rebuild re-encodes
object 2 independently exactly like any other image — its payload becomes the
fresh JPEG bytes. The source's soft-mask branch special-cases nothing, so the
claim that such images are handled with their parent rather than
independently re-encoded is false. -/
theorem c4_counterexample :
    imgFixA.smask = some imgFixB.xref ∧
    (wFix.parse [0]).objects = [imgFixA, imgFixB] ∧
    (rebuildPdfDoc wFix [0] 80 1 none ⟨0, []⟩).1 = some docFixRebuilt ∧
    docFixRebuilt.objects[1]? = some imgFixB' ∧
    imgFixB'.payload.bytes ≠ imgFixB.payload.bytes ∧
    imgFixB'.payload.bytes = [7, 7] :=
  ⟨rfl, rfl, by rw [rebuildPdfDoc_wFix], rfl, by decide, rfl⟩

/-- C4 amended: the set of images processed for re-encoding is the sorted,
deduplicated set of image object ids of the document's pages; images whose
raw byte size is below the 4096-byte threshold and images flagged
`/ImageMask true` are left untouched; but images referenced as another
image's soft mask are NOT special-cased — re-encoding is entirely insensitive
to the `/SMask` field, so such images are re-encoded independently like any
other. -/
theorem c4_inventory_and_skip_rules :
    (∀ pages : List (List ℕ),
      (getImageXrefs pages).Sorted (· ≤ ·) ∧ (getImageXrefs pages).Nodup ∧
      ∀ x, x ∈ getImageXrefs pages ↔ ∃ p ∈ pages, x ∈ p) ∧
    (∀ (c : Codec) (q : ℤ) (s : ℚ) (img : XImage) (data : List ℕ),
      img.extracted = some data → data.length < 4096 →
      rebuildImage c q s img = img) ∧
    (∀ (c : Codec) (q : ℤ) (s : ℚ) (img : XImage),
      img.isMask = true → rebuildImage c q s img = img) ∧
    (∀ (c : Codec) (q : ℤ) (s : ℚ) (img : XImage) (m : Option ℕ),
      rebuildImage c q s { img with smask := m } =
        { rebuildImage c q s img with smask := m }) := by
  refine ⟨?_, ?_, ?_, ?_⟩
  · intro pages
    exact ⟨getImageXrefs_sorted pages, getImageXrefs_nodup pages,
      mem_getImageXrefs pages⟩
  · intro c q s img data hx hlen
    apply rebuildImage_of_none
    simp [reencodeResult, hx, hlen]
  · intro c q s img hm
    apply rebuildImage_of_none
    cases hx : img.extracted with
    | none => simp [reencodeResult, hx]
    | some data => simp [reencodeResult, hx, hm]
  · intro c q s img m
    have hre : reencodeResult c q s { img with smask := m } =
        reencodeResult c q s img := rfl
    unfold rebuildImage
    rw [hre]
    cases hr : reencodeResult c q s img with
    | none => rfl
    | some r =>
      rcases r with ⟨nw, nh, pix, jpeg⟩
      rfl

theorem c4_witness :
    imgFixA.extracted = some bigBytes ∧
    ([1] : List ℕ).length < 4096 ∧
    (rebuildImage cFix 80 1 { imgFixA with extracted := some [1] } =
      { imgFixA with extracted := some [1] }) ∧
    (rebuildImage cFix 80 1 { imgFixA with isMask := true } =
      { imgFixA with isMask := true }) ∧
    (rebuildImage cFix 80 1 { imgFixB with smask := some 1 } =
      { rebuildImage cFix 80 1 imgFixB with smask := some 1 }) :=
  ⟨rfl, by decide,
   c4_inventory_and_skip_rules.2.1 cFix 80 1 { imgFixA with extracted := some [1] }
     [1] rfl (by decide),
   c4_inventory_and_skip_rules.2.2.1 cFix 80 1 { imgFixA with isMask := true } rfl,
   c4_inventory_and_skip_rules.2.2.2 cFix 80 1 imgFixB (some 1)⟩

/-! ### Claim C8: per-image failures are recovered locally -/

/-- C8: a rebuild pass never aborts — with no cancellation it always returns
`some`, having visited exactly the inventoried xrefs, every object being
either rewritten or left alone; and an image whose decode fails, or whose
JPEG encode fails, is left byte-for-byte unmodified while the others are
still processed as usual. -/
theorem c8_per_image_failures_recovered :
    (∀ (w : World) (src : List ℕ) (q : ℤ) (s : ℚ) (t : Tr),
      ∃ d' t', rebuildPdfDoc w src q s none t = (some d', t') ∧
        d'.objects = (w.parse src).objects.map fun o =>
          if o.xref ∈ getImageXrefs (w.parse src).pages
          then rebuildImage w.codec q s o else o) ∧
    (∀ (c : Codec) (q : ℤ) (s : ℚ) (img : XImage) (data : List ℕ),
      img.extracted = some data → c.decode data = none →
      rebuildImage c q s img = img) ∧
    (∀ (c : Codec) (q : ℤ) (s : ℚ) (img : XImage) (data : List ℕ) (p0 : PixBuf),
      img.extracted = some data → c.decode data = some p0 →
      c.encode (normalizeMode c (scaledPix c s p0)) q = none →
      rebuildImage c q s img = img) := by
  refine ⟨?_, ?_, ?_⟩
  · intro w src q s t
    refine ⟨rebuildFold w.codec q s (getImageXrefs (w.parse src).pages) (w.parse src),
      emit t .parseStream, ?_, ?_⟩
    · simp only [rebuildPdfDoc, rebuildLoop_none]
      rfl
    · exact rebuildFold_objects _ _ _ _ _ (getImageXrefs_nodup _)
  · intro c q s img data hx hdec
    apply rebuildImage_of_none
    simp [reencodeResult, hx, hdec]
  · intro c q s img data p0 hx hdec henc
    apply rebuildImage_of_none
    simp [reencodeResult, hx, hdec, henc]

/-- A codec whose decoding always fails. -/
def cBadDecode : Codec := { cFix with decode := fun _ => none }

theorem c8_witness :
    imgFixA.extracted = some bigBytes ∧
    cBadDecode.decode bigBytes = none ∧
    rebuildImage cBadDecode 80 1 imgFixA = imgFixA ∧
    (∃ d' t', rebuildPdfDoc wFix [0] 80 1 none ⟨0, []⟩ = (some d', t') ∧
      d'.objects = (wFix.parse [0]).objects.map fun o =>
        if o.xref ∈ getImageXrefs (wFix.parse [0]).pages
        then rebuildImage wFix.codec 80 1 o else o) :=
  ⟨rfl, rfl,
   c8_per_image_failures_recovered.2.1 cBadDecode 80 1 imgFixA bigBytes rfl rfl,
   c8_per_image_failures_recovered.1 wFix [0] 80 1 ⟨0, []⟩⟩

/-! ### Claim C1: rewritten payloads are raw JPEG, never re-wrapped -/

/-- C1: whenever a rebuild completes, every object of the saved document
either still is the original object or carries exactly the codec's lossy
(JPEG) output bytes with `flateWrapped = false`: the stream replacement
stored the bytes uncompressed (`update_stream(..., compress=0)`) and the
final save ran with `deflate=False`, so a lossy payload is never wrapped in a
second lossless container compression layer. -/
theorem c1_rewritten_payloads_never_rewrapped (w : World) (src : List ℕ)
    (q : ℤ) (s : ℚ) (cancel : Option (ℕ → Bool)) (t : Tr) (d' : MDoc) (t' : Tr)
    (h : rebuildPdfDoc w src q s cancel t = (some d', t')) :
    ∀ o' ∈ d'.objects, ∃ o, o ∈ (w.parse src).objects ∧
      (o' = o ∨ ∃ nw nh pix jpeg,
        reencodeResult w.codec q s o = some (nw, nh, pix, jpeg) ∧
        o'.payload = ⟨jpeg, false⟩) := by
  simp only [rebuildPdfDoc] at h
  rcases hrl : rebuildLoop w.codec cancel q s
      (getImageXrefs (w.parse src).pages) (w.parse src) (emit t .parseStream)
    with ⟨o, t₁⟩
  rw [hrl] at h
  cases o with
  | none => simp at h
  | some dd =>
    dsimp only at h
    injection h with h1 h2
    injection h1 with h1
    have hd : dd = d' := h1
    have hfold := rebuildLoop_some w.codec cancel q s _ _ _ _ _ hrl
    subst hd
    subst hfold
    rw [rebuildFold_objects _ _ _ _ _ (getImageXrefs_nodup _)]
    intro o' ho'
    rcases List.mem_map.mp ho' with ⟨o, ho, rfl⟩
    refine ⟨o, ho, ?_⟩
    by_cases hmem : o.xref ∈ getImageXrefs (w.parse src).pages
    · simp only [if_pos hmem]
      unfold rebuildImage
      cases hre : reencodeResult w.codec q s o with
      | none => exact Or.inl rfl
      | some r =>
        rcases r with ⟨nw, nh, pix, jpeg⟩
        exact Or.inr ⟨nw, nh, pix, jpeg, rfl, rfl⟩
    · simp [hmem]

theorem c1_witness :
    rebuildPdfDoc wFix [0] 80 1 none ⟨0, []⟩ =
      (some docFixRebuilt, ⟨0, [Eff.parseStream]⟩) ∧
    (∀ o' ∈ docFixRebuilt.objects, ∃ o, o ∈ (wFix.parse [0]).objects ∧
      (o' = o ∨ ∃ nw nh pix jpeg,
        reencodeResult wFix.codec 80 1 o = some (nw, nh, pix, jpeg) ∧
        o'.payload = ⟨jpeg, false⟩)) :=
  ⟨rebuildPdfDoc_wFix,
   c1_rewritten_payloads_never_rewrapped wFix [0] 80 1 none ⟨0, []⟩
     docFixRebuilt ⟨0, [Eff.parseStream]⟩ rebuildPdfDoc_wFix⟩

/-! ### Claim C2: the quality search against the spec's integer binary search -/

theorem qualitySearchSpecAmended_mem (f : ℤ → List ℕ) (target tol : ℤ) :
    ∀ (fuel : ℕ) (lo hi : ℤ) (best : Option (List ℕ × ℤ)),
      (∀ b q, best = some (b, q) → b = f q ∧ (b.length : ℤ) ≤ target) →
      ∀ b q, qualitySearchSpecAmended f target tol fuel lo hi best = some (b, q) →
        b = f q ∧ (b.length : ℤ) ≤ target := by
  intro fuel
  induction fuel with
  | zero => intro lo hi best hbest b q h; exact hbest b q h
  | succ n ih =>
    intro lo hi best hbest b q h
    rw [qualitySearchSpecAmended] at h
    by_cases hfits : ((f ((lo + hi).fdiv 2)).length : ℤ) ≤ target
    · simp only [if_pos hfits] at h
      have hbest' : ∀ b q,
          some (f ((lo + hi).fdiv 2), (lo + hi).fdiv 2) = some (b, q) →
          b = f q ∧ (b.length : ℤ) ≤ target := by
        intro b q hbq
        injection hbq with hbq
        injection hbq with h1 h2
        subst h2
        subst h1
        exact ⟨rfl, hfits⟩
      split at h
      · exact hbest' b q h
      · split at h
        · exact hbest' b q h
        · exact ih _ _ _ hbest' b q h
    · simp only [if_neg hfits] at h
      split at h
      · exact hbest b q h
      · split at h
        · exact hbest b q h
        · exact ih _ _ _ hbest b q h

theorem qualitySearchSpecAmended_some (f : ℤ → List ℕ) (target tol : ℤ) :
    ∀ (fuel : ℕ) (lo hi : ℤ) (b : List ℕ × ℤ),
      ∃ r, qualitySearchSpecAmended f target tol fuel lo hi (some b) = some r := by
  intro fuel
  induction fuel with
  | zero => intro lo hi b; exact ⟨b, rfl⟩
  | succ n ih =>
    intro lo hi b
    rw [qualitySearchSpecAmended]
    by_cases hfits : ((f ((lo + hi).fdiv 2)).length : ℤ) ≤ target
    · simp only [if_pos hfits]
      split
      · exact ⟨_, rfl⟩
      · split
        · exact ⟨_, rfl⟩
        · exact ih _ _ _
    · simp only [if_neg hfits]
      split
      · exact ⟨_, rfl⟩
      · split
        · exact ⟨_, rfl⟩
        · exact ih _ _ _

theorem qualityLoop_eq_spec (w : World) (src : List ℕ) (target tol : ℤ) :
    ∀ (fuel : ℕ) (lo hi : ℤ) (best : Option (List ℕ)) (bestQ : ℤ) (t : Tr),
      (qualityLoop w src target tol none fuel lo hi best bestQ t).1 =
        (match qualitySearchSpecAmended (fun q => rebuildBytes w src q 1) target tol
            fuel lo hi (best.map fun b => (b, bestQ)) with
         | some (b, q) => (some b, q)
         | none => (none, bestQ)) := by
  intro fuel
  induction fuel with
  | zero =>
    intro lo hi best bestQ t
    cases best <;> rfl
  | succ n ih =>
    intro lo hi best bestQ t
    rw [qualityLoop, qualitySearchSpecAmended]
    simp only [pollCancel, Bool.false_eq_true, if_false, rebuildPdf_none]
    by_cases hfits : ((rebuildBytes w src ((lo + hi).fdiv 2) 1).length : ℤ) ≤ target
    · simp only [if_pos hfits]
      have hmap : Option.map Prod.fst
          (some (rebuildBytes w src ((lo + hi).fdiv 2) 1, (lo + hi).fdiv 2)) =
          some (rebuildBytes w src ((lo + hi).fdiv 2) 1) := rfl
      rw [hmap]
      by_cases hconv : withinTol (some (rebuildBytes w src ((lo + hi).fdiv 2) 1)) target tol = true
      · rw [if_pos hconv, if_pos hconv]
      · rw [if_neg hconv, if_neg hconv]
        by_cases hgt : (lo + hi).fdiv 2 + 1 > hi
        · rw [if_pos hgt, if_pos hgt]
        · rw [if_neg hgt, if_neg hgt]
          have hrec := ih ((lo + hi).fdiv 2 + 1) hi
            (some (rebuildBytes w src ((lo + hi).fdiv 2) 1)) ((lo + hi).fdiv 2)
            (emit t .parseStream)
          obtain ⟨r, hr⟩ := qualitySearchSpecAmended_some (fun q => rebuildBytes w src q 1)
            target tol n ((lo + hi).fdiv 2 + 1) hi
            (rebuildBytes w src ((lo + hi).fdiv 2) 1, (lo + hi).fdiv 2)
          rw [hr]
          rw [show (Option.map (fun b => (b, (lo + hi).fdiv 2))
              (some (rebuildBytes w src ((lo + hi).fdiv 2) 1))) =
              some (rebuildBytes w src ((lo + hi).fdiv 2) 1, (lo + hi).fdiv 2) from rfl,
            hr] at hrec
          exact hrec
    · simp only [if_neg hfits]
      by_cases hconv : withinTol best target tol = true
      · have hconv2 : withinTol ((best.map fun b => (b, bestQ)).map Prod.fst) target tol = true := by
          cases best <;> simpa using hconv
        rw [if_pos hconv, if_pos hconv2]
        cases best <;> rfl
      · have hconv2 : ¬ withinTol ((best.map fun b => (b, bestQ)).map Prod.fst) target tol = true := by
          cases best <;> simpa using hconv
        rw [if_neg hconv, if_neg hconv2]
        by_cases hgt : lo > (lo + hi).fdiv 2 - 1
        · rw [if_pos hgt, if_pos hgt]
          cases best <;> rfl
        · rw [if_neg hgt, if_neg hgt]
          exact ih lo ((lo + hi).fdiv 2 - 1) best bestQ (emit t .parseStream)

/-- C2 counterexample: the engine's tolerance test is
`best_result and abs(...) <= tolerance`, and Python bytes truthiness makes an
EMPTY best-so-far falsy — the source never tolerance-stops on it — while the
claim's algorithm stops whenever "the best-so-far is within tolerance". At a
world where every rebuild serializes to the empty stream (target 50,
tolerance 102400, bounds [5, 95], budget 12), the spec's search as written
stops at the first trial and returns quality 50, but the engine keeps
bisecting upward (mids 50, 73, 84, 90, 93, 94, 95) and returns quality 95 —
so the claimed equality fails at this input. -/
theorem c2_counterexample :
    qualitySearchSpec (fun q => rebuildBytes wZeroPages (List.replicate 60 0) q 1)
      50 102400 12 5 95 none = some ([], 50) ∧
    ((binarySearchQuality wZeroPages (List.replicate 60 0) 50 5 95 102400 12
        none ⟨0, []⟩).1 = (some [], 95)) ∧
    (binarySearchQuality wZeroPages (List.replicate 60 0) 50 5 95 102400 12
        none ⟨0, []⟩).1 ≠
      (match qualitySearchSpec
          (fun q => rebuildBytes wZeroPages (List.replicate 60 0) q 1)
          50 102400 12 5 95 none with
       | some (b, q) => (some b, q)
       | none => (none, 95)) :=
  ⟨by decide, by decide, by decide⟩

/-- C2 amended: the quality search is the spec's integer binary search with
one change, forced by the counterexample: the tolerance stop fires only when
the best-so-far is NON-EMPTY and within tolerance of the target (Python
bytes truthiness in `best_result and abs(...) <= tolerance`). For every
baseline, target size, quality bounds, tolerance and iteration budget, the
search (run without cancellation) computes exactly what this amended binary
search computes over the re-encoder `fun q => rebuildBytes w src q 1` —
recording a fitting trial as best-so-far and searching higher, lowering `hi`
otherwise, stopping on `lo > hi`, on the amended tolerance test, or on budget
exhaustion — returning the best-so-far stream with its quality
(`(none, maxQ)` standing for "no candidate"); and any candidate the amended
search returns is the re-encoding at the returned quality and meets the
target. -/
theorem c2_quality_search_refines_spec (w : World) (src : List ℕ)
    (target minQ maxQ tol : ℤ) (maxIter : ℕ) (t : Tr) :
    ((binarySearchQuality w src target minQ maxQ tol maxIter none t).1 =
      (match qualitySearchSpecAmended (fun q => rebuildBytes w src q 1) target tol
          maxIter minQ maxQ none with
       | some (b, q) => (some b, q)
       | none => (none, maxQ))) ∧
    (∀ b q, qualitySearchSpecAmended (fun q => rebuildBytes w src q 1) target tol
        maxIter minQ maxQ none = some (b, q) →
      b = rebuildBytes w src q 1 ∧ (b.length : ℤ) ≤ target) := by
  constructor
  · have h := qualityLoop_eq_spec w src target tol maxIter minQ maxQ none maxQ t
    simpa [binarySearchQuality] using h
  · intro b q h
    refine qualitySearchSpecAmended_mem _ _ _ _ _ _ _ ?_ b q h
    intro b q h'
    cases h'

theorem c2_witness :
    ((binarySearchQuality wZeroPages (List.replicate 60 0) 50 5 95 102400 12
        none ⟨0, []⟩).1 = (some [], 95)) ∧
    qualitySearchSpecAmended
      (fun q => rebuildBytes wZeroPages (List.replicate 60 0) q 1)
      50 102400 12 5 95 none = some ([], 95) ∧
    ([] : List ℕ) = rebuildBytes wZeroPages (List.replicate 60 0) 95 1 ∧
    (([] : List ℕ).length : ℤ) ≤ 50 :=
  have h := c2_quality_search_refines_spec wZeroPages (List.replicate 60 0)
    50 5 95 102400 12 ⟨0, []⟩
  have hspec : qualitySearchSpecAmended
      (fun q => rebuildBytes wZeroPages (List.replicate 60 0) q 1)
      50 102400 12 5 95 none = some ([], 95) := by decide
  ⟨by rw [h.1, hspec], hspec, (h.2 [] 95 hspec).1, (h.2 [] 95 hspec).2⟩

/-! ### Claim C3: input validation — cannot-open and encrypted, but not zero pages -/

/-- A world whose document fails to open. -/
def wOpenFail : World := { wZeroPages with openErr := some "boom" }

/-- A world whose document is encrypted. -/
def wEncrypted : World := { wZeroPages with encrypted := true }

/-- C3 counterexample: a zero-page document (which opens fine and is not
encrypted) is NOT rejected — the run proceeds all the way to a successful
text-only outcome instead of failing fast with a zero-page error. -/
theorem c3_counterexample :
    wZeroPages.pageCount = 0 ∧
    wZeroPages.openErr = none ∧
    wZeroPages.encrypted = false ∧
    ¬ (wZeroPages.inputSize : ℤ) ≤ cfgFix.target_size_bytes ∧
    (compress wZeroPages cfgFix none ⟨0, []⟩).1.success = true ∧
    (compress wZeroPages cfgFix none ⟨0, []⟩).1.text_only = true ∧
    (compress wZeroPages cfgFix none ⟨0, []⟩).1.error_message = "" :=
  ⟨rfl, rfl, rfl, by decide, rfl, rfl, rfl⟩

/-- C3 amended: when the original size exceeds the target, the run fails fast
with a specific error if the document cannot be opened, and with a specific
error if it is encrypted — before any lossless optimization, inventory or
re-encoding (the trace holds only the open attempt). A zero-page document,
however, is not checked and not rejected. -/
theorem c3_open_and_encrypted_fail_fast (w : World) (cfg : CompressionConfig)
    (cancel : Option (ℕ → Bool)) (t : Tr) (e : String)
    (horig : ¬ (w.inputSize : ℤ) ≤ cfg.target_size_bytes) :
    (w.openErr = some e →
      compress w cfg cancel t =
        ({ success := false, error_message := "Cannot open PDF: " ++ e },
          emit t (.openFile cfg.input_path))) ∧
    (w.openErr = none → w.encrypted = true →
      compress w cfg cancel t =
        ({ success := false, error_message := "PDF is password-protected." },
          emit t (.openFile cfg.input_path))) := by
  constructor
  · intro hoe
    simp [compress, horig, hoe]
  · intro hoe henc
    simp [compress, horig, hoe, henc]

theorem c3_witness :
    (¬ (wOpenFail.inputSize : ℤ) ≤ cfgFix.target_size_bytes) ∧
    wOpenFail.openErr = some "boom" ∧
    compress wOpenFail cfgFix none ⟨0, []⟩ =
      ({ success := false, error_message := "Cannot open PDF: " ++ "boom" },
        emit ⟨0, []⟩ (.openFile cfgFix.input_path)) ∧
    wEncrypted.openErr = none ∧
    wEncrypted.encrypted = true ∧
    compress wEncrypted cfgFix none ⟨0, []⟩ =
      ({ success := false, error_message := "PDF is password-protected." },
        emit ⟨0, []⟩ (.openFile cfgFix.input_path)) :=
  ⟨by decide, rfl,
   (c3_open_and_encrypted_fail_fast wOpenFail cfgFix none ⟨0, []⟩ "boom"
     (by decide)).1 rfl,
   rfl, rfl,
   (c3_open_and_encrypted_fail_fast wEncrypted cfgFix none ⟨0, []⟩ ""
     (by decide)).2 rfl rfl⟩

/-! ### Claim C5: zero recompressible images -/

/-- C5 counterexample: a document with zero recompressible images whose file
is already at or under the target terminates already-small — not text-only —
and the lossless baseline is not written (the trace stays empty), so "for
every document with zero recompressible images the run terminates text-only
with the baseline written" is false as stated. -/
theorem c5_counterexample :
    getImageXrefs (wSmallFix.parse wSmallFix.losslessBytes).pages = [] ∧
    (compress wSmallFix cfgFix none ⟨0, []⟩).1.already_small = true ∧
    (compress wSmallFix cfgFix none ⟨0, []⟩).1.text_only = false ∧
    (compress wSmallFix cfgFix none ⟨0, []⟩).2.effs = [] :=
  ⟨rfl, rfl, rfl, rfl⟩

/-- C5 amended: for every document with zero recompressible images, provided
the run actually reaches the inventory — the original size and the lossless
baseline size both exceed the target, the document opens and is not
encrypted — the run terminates in the text-only state, the lossless baseline
is the only write (to the output path; the trace shows no further parse, i.e.
no quality or scale search is attempted), and the achieved compressed size
equals the lossless baseline size. -/
theorem c5_text_only_when_no_images (w : World) (cfg : CompressionConfig) (t : Tr)
    (horig : ¬ (w.inputSize : ℤ) ≤ cfg.target_size_bytes)
    (hopen : w.openErr = none) (henc : w.encrypted = false)
    (hloss : ¬ (w.losslessBytes.length : ℤ) ≤ cfg.target_size_bytes)
    (himg : getImageXrefs (w.parse w.losslessBytes).pages = []) :
    compress w cfg none t =
      ({ success := true, output_path := cfg.output_path,
         original_size := w.inputSize, compressed_size := w.losslessBytes.length,
         compression_pct := pctReduction w.inputSize w.losslessBytes.length,
         pages_processed := w.pageCount, images_found := 0, text_only := true },
       { t with effs := t.effs ++ [.openFile cfg.input_path,
          .openFile cfg.input_path, .parseStream,
          .write cfg.output_path w.losslessBytes] }) := by
  simp [compress, horig, hopen, henc, hloss, himg, pollCancel, emit]

theorem c5_witness :
    (¬ (wZeroPages.inputSize : ℤ) ≤ cfgFix.target_size_bytes) ∧
    wZeroPages.openErr = none ∧
    wZeroPages.encrypted = false ∧
    (¬ (wZeroPages.losslessBytes.length : ℤ) ≤ cfgFix.target_size_bytes) ∧
    getImageXrefs (wZeroPages.parse wZeroPages.losslessBytes).pages = [] ∧
    compress wZeroPages cfgFix none ⟨0, []⟩ =
      ({ success := true, output_path := cfgFix.output_path,
         original_size := wZeroPages.inputSize,
         compressed_size := wZeroPages.losslessBytes.length,
         compression_pct := pctReduction wZeroPages.inputSize
           wZeroPages.losslessBytes.length,
         pages_processed := wZeroPages.pageCount, images_found := 0,
         text_only := true },
       { polls := 0, effs := [.openFile cfgFix.input_path,
          .openFile cfgFix.input_path, .parseStream,
          .write cfgFix.output_path wZeroPages.losslessBytes] }) :=
  ⟨by decide, rfl, rfl, by decide, rfl,
   c5_text_only_when_no_images wZeroPages cfgFix ⟨0, []⟩
     (by decide) rfl rfl (by decide) rfl⟩


theorem cancelledLen : "Cancelled.".length = 10 := rfl

theorem cannotOpenLen : "Cannot open PDF: ".length = 17 := rfl

theorem impossibleLen :
    "Cannot compress to target. Minimum achievable size is ".length = 54 := rfl

theorem cancelled_ne_open (e : String) :
    "Cancelled." ≠ "Cannot open PDF: " ++ e := by
  intro h
  have hlen := congrArg String.length h
  rw [String.length_append, cancelledLen, cannotOpenLen] at hlen
  omega

theorem cancelled_ne_impossible (s : String) :
    "Cancelled." ≠
      "Cannot compress to target. Minimum achievable size is " ++ s ++ "." := by
  intro h
  have hlen := congrArg String.length h
  rw [String.length_append, String.length_append, cancelledLen, impossibleLen] at hlen
  omega

theorem binarySearchQuality_stepTr (w : World) (src : List ℕ)
    (target minQ maxQ tol : ℤ) (maxIter : ℕ) (cancel : Option (ℕ → Bool)) (t : Tr) :
    StepTr t (binarySearchQuality w src target minQ maxQ tol maxIter cancel t).2 :=
  qualityLoop_stepTr w src target tol cancel maxIter minQ maxQ none maxQ t

theorem binarySearchScale_stepTr (w : World) (src : List ℕ) (target : ℤ)
    (minS maxS : ℚ) (q tol : ℤ) (maxIter : ℕ) (cancel : Option (ℕ → Bool)) (t : Tr) :
    StepTr t (binarySearchScale w src target minS maxS q tol maxIter cancel t).2 :=
  scaleLoop_stepTr w src target q tol cancel maxIter minS maxS none maxS t

theorem searchPhase_cancelled_or_last_poll_false (w : World)
    (cfg : CompressionConfig) (f : ℕ → Bool) (original pages : ℕ)
    (lossless : List ℕ) (imageCount : ℕ) (t0 : Tr) :
    (((compressSearchPhase w cfg (some f) original pages lossless imageCount t0).1 =
        { success := false, error_message := "Cancelled." }) ∧
      (∃ l, (compressSearchPhase w cfg (some f) original pages lossless
          imageCount t0).2.effs = t0.effs ++ l ∧ ∀ p d, Eff.write p d ∉ l)) ∨
    (∃ m, (compressSearchPhase w cfg (some f) original pages lossless
        imageCount t0).2.polls = m + 1 ∧ f m = false) := by
  rcases hbq : binarySearchQuality w lossless cfg.target_size_bytes cfg.min_quality
      cfg.max_quality cfg.binary_search_tolerance_bytes cfg.max_iterations (some f) t0
    with ⟨⟨resq, qq⟩, tq⟩
  have hq := binarySearchQuality_stepTr w lossless cfg.target_size_bytes
    cfg.min_quality cfg.max_quality cfg.binary_search_tolerance_bytes
    cfg.max_iterations (some f) t0
  rw [hbq] at hq
  simp only [compressSearchPhase, hbq, pollCancel]
  cases hf2 : f tq.polls with
  | true =>
    simp only [hf2, if_true]
    left
    obtain ⟨_, l, he, hw⟩ := hq
    exact ⟨trivial, l, he, hw⟩
  | false =>
    simp only [hf2, Bool.false_eq_true, if_false]
    cases resq with
    | some res =>
      right
      exact ⟨tq.polls, rfl, hf2⟩
    | none =>
      rcases hbs : binarySearchScale w lossless cfg.target_size_bytes cfg.min_scale
          cfg.max_scale cfg.min_quality cfg.binary_search_tolerance_bytes
          (min cfg.max_iterations 8) (some f) ⟨tq.polls + 1, tq.effs⟩
        with ⟨⟨ress, ss⟩, ts⟩
      have hs := binarySearchScale_stepTr w lossless cfg.target_size_bytes
        cfg.min_scale cfg.max_scale cfg.min_quality cfg.binary_search_tolerance_bytes
        (min cfg.max_iterations 8) (some f) ⟨tq.polls + 1, tq.effs⟩
      rw [hbs] at hs
      simp only [hbs]
      cases hf3 : f ts.polls with
      | true =>
        simp only [hf3, if_true]
        left
        refine ⟨trivial, ?_⟩
        obtain ⟨_, l₁, he₁, hw₁⟩ := hq
        obtain ⟨_, l₂, he₂, hw₂⟩ := hs
        refine ⟨l₁ ++ l₂, ?_, ?_⟩
        · show ts.effs = t0.effs ++ (l₁ ++ l₂)
          rw [he₂]
          show tq.effs ++ l₂ = t0.effs ++ (l₁ ++ l₂)
          rw [he₁, List.append_assoc]
        · intro p d hmem
          rcases List.mem_append.mp hmem with h | h
          · exact hw₁ p d h
          · exact hw₂ p d h
      | false =>
        simp only [hf3, Bool.false_eq_true, if_false]
        cases ress with
        | some res =>
          right
          exact ⟨ts.polls, rfl, hf3⟩
        | none =>
          right
          rw [rebuildPdf_none]
          exact ⟨ts.polls, rfl, hf3⟩

theorem compress_eq_searchPhase (w : World) (cfg : CompressionConfig)
    (f : ℕ → Bool) (t : Tr)
    (h0 : ¬ (w.inputSize : ℤ) ≤ cfg.target_size_bytes)
    (hoe : w.openErr = none) (henc : w.encrypted = false)
    (hf0 : f t.polls = false)
    (hloss : ¬ (w.losslessBytes.length : ℤ) ≤ cfg.target_size_bytes)
    (himg : ¬ (getImageXrefs (w.parse w.losslessBytes).pages).length = 0)
    (hf1 : f (t.polls + 1) = false) :
    compress w cfg (some f) t =
      compressSearchPhase w cfg (some f) w.inputSize w.pageCount w.losslessBytes
        (getImageXrefs (w.parse w.losslessBytes).pages).length
        ⟨t.polls + 1 + 1, t.effs ++ [.openFile cfg.input_path,
          .openFile cfg.input_path, .parseStream]⟩ := by
  simp [compress, h0, hoe, henc, hf0, hloss, himg, hf1, pollCancel, emit]

theorem compress_cancelled_main (w : World) (cfg : CompressionConfig)
    (f : ℕ → Bool) (t : Tr)
    (hmono : ∀ i j, i ≤ j → f i = true → f j = true)
    (hc : ∃ i, t.polls ≤ i ∧ i < (compress w cfg (some f) t).2.polls ∧ f i = true) :
    (compress w cfg (some f) t).1.success = false ∧
    (compress w cfg (some f) t).1.error_message = "Cancelled." ∧
    (∃ l, (compress w cfg (some f) t).2.effs = t.effs ++ l ∧
      ∀ p d, Eff.write p d ∉ l) := by
  by_cases h0 : (w.inputSize : ℤ) ≤ cfg.target_size_bytes
  · exfalso
    obtain ⟨i, hi1, hi2, _⟩ := hc
    have ht : (compress w cfg (some f) t).2 = t := by simp [compress, h0]
    rw [ht] at hi2
    omega
  · cases hoe : w.openErr with
    | some e =>
      exfalso
      obtain ⟨i, hi1, hi2, _⟩ := hc
      have ht : (compress w cfg (some f) t).2.polls = t.polls := by
        simp [compress, h0, hoe, emit]
      rw [ht] at hi2
      omega
    | none =>
      by_cases hencp : w.encrypted = true
      · exfalso
        obtain ⟨i, hi1, hi2, _⟩ := hc
        have ht : (compress w cfg (some f) t).2.polls = t.polls := by
          simp [compress, h0, hoe, hencp, emit]
        rw [ht] at hi2
        omega
      · have henc : w.encrypted = false := by
          cases hb : w.encrypted
          · rfl
          · exact absurd hb hencp
        cases hf0 : f t.polls with
        | true =>
          have hcpr : compress w cfg (some f) t =
              ({ success := false, error_message := "Cancelled." },
                ⟨t.polls + 1, t.effs ++ [.openFile cfg.input_path]⟩) := by
            simp [compress, h0, hoe, henc, hf0, pollCancel, emit]
          rw [hcpr]
          exact ⟨rfl, rfl, [.openFile cfg.input_path], rfl, by simp⟩
        | false =>
          by_cases hloss : (w.losslessBytes.length : ℤ) ≤ cfg.target_size_bytes
          · exfalso
            obtain ⟨i, hi1, hi2, hif⟩ := hc
            have ht : (compress w cfg (some f) t).2.polls = t.polls + 1 := by
              simp [compress, h0, hoe, henc, hf0, hloss, pollCancel, emit]
            rw [ht] at hi2
            have hieq : i = t.polls := by omega
            rw [hieq, hf0] at hif
            cases hif
          · by_cases himg : (getImageXrefs (w.parse w.losslessBytes).pages).length = 0
            · exfalso
              obtain ⟨i, hi1, hi2, hif⟩ := hc
              have ht : (compress w cfg (some f) t).2.polls = t.polls + 1 := by
                simp [compress, h0, hoe, henc, hf0, hloss, himg, pollCancel, emit]
              rw [ht] at hi2
              have hieq : i = t.polls := by omega
              rw [hieq, hf0] at hif
              cases hif
            · cases hf1 : f (t.polls + 1) with
              | true =>
                have hcpr : compress w cfg (some f) t =
                    ({ success := false, error_message := "Cancelled." },
                      ⟨t.polls + 1 + 1, t.effs ++ [.openFile cfg.input_path,
                        .openFile cfg.input_path, .parseStream]⟩) := by
                  simp [compress, h0, hoe, henc, hf0, hloss, himg, hf1,
                    pollCancel, emit]
                rw [hcpr]
                refine ⟨rfl, rfl, [.openFile cfg.input_path,
                  .openFile cfg.input_path, .parseStream], rfl, by simp⟩
              | false =>
                have heq := compress_eq_searchPhase w cfg f t h0 hoe henc hf0
                  hloss himg hf1
                rw [heq] at hc ⊢
                rcases searchPhase_cancelled_or_last_poll_false w cfg f w.inputSize
                    w.pageCount w.losslessBytes
                    (getImageXrefs (w.parse w.losslessBytes).pages).length
                    ⟨t.polls + 1 + 1, t.effs ++ [.openFile cfg.input_path,
                      .openFile cfg.input_path, .parseStream]⟩
                  with ⟨hres, l, he, hw⟩ | ⟨m, hm, hmf⟩
                · refine ⟨by rw [hres], by rw [hres], ?_⟩
                  refine ⟨[Eff.openFile cfg.input_path, Eff.openFile cfg.input_path,
                    Eff.parseStream] ++ l, ?_, ?_⟩
                  · rw [he]
                    show (t.effs ++ [Eff.openFile cfg.input_path,
                      Eff.openFile cfg.input_path, Eff.parseStream]) ++ l = _
                    rw [List.append_assoc]
                  · intro p d hmem
                    rcases List.mem_append.mp hmem with h | h
                    · simp at h
                    · exact hw p d h
                · exfalso
                  obtain ⟨i, hi1, hi2, hif⟩ := hc
                  rw [hm] at hi2
                  have hfm : f m = true := hmono i m (by omega) hif
                  rw [hmf] at hfm
                  cases hfm

/-- C9: under a monotone cancellation callback (once true, always true), if
any poll made during the run — in particular any poll during the quality or
scale search — returns true, the run terminates with the cancelled outcome:
`success = false` with the message `"Cancelled."`, it takes priority over any
computed search result, no output file is written (the trace gains no write
effect), and the cancelled message is distinct from every failure message
the engine can produce (cannot-open, encrypted, impossible-target). -/
theorem c9_cancellation_wins (w : World) (cfg : CompressionConfig)
    (f : ℕ → Bool) (t : Tr)
    (hmono : ∀ i j, i ≤ j → f i = true → f j = true)
    (hc : ∃ i, t.polls ≤ i ∧ i < (compress w cfg (some f) t).2.polls ∧
      f i = true) :
    (compress w cfg (some f) t).1.success = false ∧
    (compress w cfg (some f) t).1.error_message = "Cancelled." ∧
    (∃ l, (compress w cfg (some f) t).2.effs = t.effs ++ l ∧
      ∀ p d, Eff.write p d ∉ l) ∧
    (∀ e, "Cancelled." ≠ "Cannot open PDF: " ++ e) ∧
    ("Cancelled." ≠ "PDF is password-protected.") ∧
    (∀ s, "Cancelled." ≠
      "Cannot compress to target. Minimum achievable size is " ++ s ++ ".") :=
  have h := compress_cancelled_main w cfg f t hmono hc
  ⟨h.1, h.2.1, h.2.2, cancelled_ne_open, by decide, cancelled_ne_impossible⟩

theorem c9_witness :
    (∀ i j, i ≤ j → fCancelFix i = true → fCancelFix j = true) ∧
    (∃ i, (⟨0, []⟩ : Tr).polls ≤ i ∧
      i < (compress wFix cfgFix (some fCancelFix) ⟨0, []⟩).2.polls ∧
      fCancelFix i = true) ∧
    ((compress wFix cfgFix (some fCancelFix) ⟨0, []⟩).1.success = false ∧
     (compress wFix cfgFix (some fCancelFix) ⟨0, []⟩).1.error_message = "Cancelled." ∧
     (∃ l, (compress wFix cfgFix (some fCancelFix) ⟨0, []⟩).2.effs =
        (⟨0, []⟩ : Tr).effs ++ l ∧ ∀ p d, Eff.write p d ∉ l) ∧
     (∀ e, "Cancelled." ≠ "Cannot open PDF: " ++ e) ∧
     ("Cancelled." ≠ "PDF is password-protected.") ∧
     (∀ s, "Cancelled." ≠
       "Cannot compress to target. Minimum achievable size is " ++ s ++ ".")) :=
  have hmono : ∀ i j, i ≤ j → fCancelFix i = true → fCancelFix j = true :=
    fun i j hij hi => by
      simp only [fCancelFix, decide_eq_true_eq] at hi ⊢
      omega
  have hc : ∃ i, (⟨0, []⟩ : Tr).polls ≤ i ∧
      i < (compress wFix cfgFix (some fCancelFix) ⟨0, []⟩).2.polls ∧
      fCancelFix i = true :=
    ⟨2, by decide, by decide, by decide⟩
  ⟨hmono, hc, c9_cancellation_wins wFix cfgFix fCancelFix ⟨0, []⟩ hmono hc⟩

end LocalPDF
